/-
Verification of the DeepVO batch-generation code (`src/Epoch.py`, `src/batcher.py`).

The Python source is shallowly embedded below:
* Python `int` is modelled as `Int`; file contents as `List Nat` (byte values);
  floating-point values as real numbers (`ℝ`).
* `numpy` matrices are Mathlib matrices over `ℝ`; `np.linalg.norm` on a 2-D
  array is the Frobenius norm; `np.linalg.inv` is the Mathlib matrix inverse
  (total, so it is only meaningful under an invertibility hypothesis, matching
  `LinAlgError` being fatal in the source).
* Code that raises in Python is modelled with `Except String`.
* File-system access (`os.listdir` frame counts, `.flo` files, `odometry(...)`
  pose loading) is abstracted into explicit parameters: a per-sequence frame
  count, a `flowAt` function giving the flow image stored for a frame number,
  and a `poseAt` function giving the ground-truth pose for a frame number.
* `random.shuffle` is modelled by quantifying over any pool that is a
  permutation (`List.Perm`) of the unshuffled window list.
-/

import Mathlib

open Matrix

/-- Python `range(start, stop, step)` for a positive `step`, evaluated with
explicit fuel.  `(stop - start).toNat` steps always suffice because each
iteration advances `start` by `step ≥ 1`. -/
def pythonRangeAux (step stop : Int) : Nat → Int → List Int
  | 0, _ => []
  | fuel + 1, start =>
    if start < stop then start :: pythonRangeAux step stop fuel (start + step)
    else []

/-- Python `range(start, stop, step)` (positive `step`). -/
def pythonRange (start stop step : Int) : List Int :=
  pythonRangeAux step stop (stop - start).toNat start

/-- A window index as stored in `Epoch.window_idxs`:
`(seq_no, (window_start, window_end))`. -/
abbrev Window : Type := String × Int × Int

/-- The inner loop of `Epoch.partition_sequences` for one training sequence:
`for window_start in range(1, len_seq - self.window_size + 1, self.step_size)`
appending `(seq_no, (window_start, min(window_start + window_size + 1, len_seq + 1)))`.
`len_seq = len(os.listdir(join(flowdir, seq_no)))` is abstracted into the
`len_seq` parameter. -/
def partition_one (seq_no : String) (len_seq window_size step_size : Int) :
    List Window :=
  (pythonRange 1 (len_seq - window_size + 1) step_size).map fun window_start =>
    (seq_no, window_start, min (window_start + window_size + 1) (len_seq + 1))

/-- `Epoch.partition_sequences` before the final `random.shuffle`: the
concatenation of `partition_one` over all training sequences, each paired with
its frame count. -/
def partition_sequences (seqs : List (String × Int)) (window_size step_size : Int) :
    List Window :=
  seqs.flatMap fun p => partition_one p.1 p.2 window_size step_size

/-- `Epoch.is_complete`: `if len(self.window_idxs) > 0: return False else: return True`. -/
def is_complete (window_idxs : List Window) : Bool :=
  if 0 < window_idxs.length then false else true

/-- The window-drawing part of `Epoch.get_batch`: `batch_size` iterations, each
popping the last element of `window_idxs` unless the pool is already empty.
Returns the drawn windows (in draw order) and the remaining pool. -/
def get_batch_windows : Nat → List Window → List Window × List Window
  | 0, window_idxs => ([], window_idxs)
  | n + 1, window_idxs =>
    match window_idxs.getLast? with
    | none => ([], window_idxs)
    | some wnd =>
      let rest := get_batch_windows n window_idxs.dropLast
      (wnd :: rest.1, rest.2)

/-- One training epoch at the window level: call `get_batch` repeatedly (with
fuel bounding the number of calls) until `is_complete`, collecting every window
drawn across all calls, together with the final pool. -/
def drawAll (batch_size : Nat) : Nat → List Window → List Window × List Window
  | 0, window_idxs => ([], window_idxs)
  | fuel + 1, window_idxs =>
    if is_complete window_idxs then ([], window_idxs)
    else
      let drawn := get_batch_windows batch_size window_idxs
      let next := drawAll batch_size fuel drawn.2
      (drawn.1 ++ next.1, next.2)

section PythonRangeLemmas

lemma pythonRangeAux_le_of_mem {step stop : Int} (hstep : 0 ≤ step) :
    ∀ (fuel : Nat) (start a : Int),
      a ∈ pythonRangeAux step stop fuel start → start ≤ a := by
  intro fuel
  induction fuel with
  | zero => intro start a ha; simp [pythonRangeAux] at ha
  | succ n ih =>
    intro start a ha
    by_cases h : start < stop
    · rw [pythonRangeAux, if_pos h] at ha
      rcases List.mem_cons.mp ha with h1 | h1
      · omega
      · have := ih (start + step) a h1
        omega
    · rw [pythonRangeAux, if_neg h] at ha
      simp at ha

lemma pythonRangeAux_pairwise {step stop : Int} (hstep : 0 < step) :
    ∀ (fuel : Nat) (start : Int),
      (pythonRangeAux step stop fuel start).Pairwise (· < ·) := by
  intro fuel
  induction fuel with
  | zero => intro start; simp [pythonRangeAux]
  | succ n ih =>
    intro start
    by_cases h : start < stop
    · rw [pythonRangeAux, if_pos h]
      refine List.pairwise_cons.mpr ⟨?_, ih (start + step)⟩
      intro a ha
      have := pythonRangeAux_le_of_mem (le_of_lt hstep) n (start + step) a ha
      omega
    · rw [pythonRangeAux, if_neg h]
      exact List.Pairwise.nil

lemma pythonRangeAux_mem {step stop : Int} (hstep : 0 < step) :
    ∀ (fuel : Nat) (start : Int), (stop - start).toNat ≤ fuel →
      ∀ a : Int,
        (a ∈ pythonRangeAux step stop fuel start ↔
          ∃ k : Nat, a = start + (k : Int) * step ∧ a < stop) := by
  intro fuel
  induction fuel with
  | zero =>
    intro start hfuel a
    have hstop : stop ≤ start := by omega
    simp only [pythonRangeAux, List.not_mem_nil, false_iff]
    rintro ⟨k, hk, hlt⟩
    have : (0 : Int) ≤ (k : Int) * step := by positivity
    omega
  | succ n ih =>
    intro start hfuel a
    by_cases h : start < stop
    · rw [pythonRangeAux, if_pos h]
      have hrec := ih (start + step) (by omega) a
      constructor
      · intro ha
        rcases List.mem_cons.mp ha with h1 | h1
        · exact ⟨0, by simpa using h1, h1 ▸ h⟩
        · rcases (hrec.mp h1) with ⟨k, hk, hlt⟩
          exact ⟨k + 1, by push_cast; linarith, hlt⟩
      · rintro ⟨k, hk, hlt⟩
        cases k with
        | zero => simp at hk; simp [hk]
        | succ m =>
          refine List.mem_cons.mpr (Or.inr (hrec.mpr ⟨m, ?_, hlt⟩))
          push_cast at hk ⊢
          linarith
    · rw [pythonRangeAux, if_neg h]
      simp only [List.not_mem_nil, false_iff]
      rintro ⟨k, hk, hlt⟩
      have : (0 : Int) ≤ (k : Int) * step := by positivity
      omega

lemma pythonRange_mem {start stop step : Int} (hstep : 0 < step) (a : Int) :
    a ∈ pythonRange start stop step ↔
      ∃ k : Nat, a = start + (k : Int) * step ∧ a < stop :=
  pythonRangeAux_mem hstep _ start le_rfl a

lemma pythonRange_pairwise {start stop step : Int} (hstep : 0 < step) :
    (pythonRange start stop step).Pairwise (· < ·) :=
  pythonRangeAux_pairwise hstep _ start

lemma pythonRange_nodup {start stop step : Int} (hstep : 0 < step) :
    (pythonRange start stop step).Nodup :=
  (pythonRange_pairwise hstep).imp ne_of_lt

lemma pythonRangeAux_length_step_one {stop : Int} :
    ∀ (fuel : Nat) (start : Int), (stop - start).toNat = fuel →
      (pythonRangeAux 1 stop fuel start).length = fuel := by
  intro fuel
  induction fuel with
  | zero => intro start _; simp [pythonRangeAux]
  | succ n ih =>
    intro start hfuel
    have h : start < stop := by omega
    rw [pythonRangeAux, if_pos h]
    simp only [List.length_cons]
    rw [ih (start + 1) (by omega)]

lemma pythonRange_length_step_one {start stop : Int} :
    (pythonRange start stop 1).length = (stop - start).toNat :=
  pythonRangeAux_length_step_one _ start rfl

lemma pythonRange_empty_of_le {start stop step : Int} (h : stop ≤ start) :
    pythonRange start stop step = [] := by
  have : (stop - start).toNat = 0 := by omega
  rw [pythonRange, this, pythonRangeAux]

end PythonRangeLemmas

section SchedulerLemmas

lemma is_complete_nil : is_complete [] = true := rfl

lemma is_complete_eq_true_iff (pool : List Window) :
    is_complete pool = true ↔ pool = [] := by
  cases pool <;> simp [is_complete]

lemma get_batch_windows_nil (b : Nat) : get_batch_windows b [] = ([], []) := by
  cases b <;> rfl

/-- Closed form for the batch-drawing loop: it draws the last
`min batch_size pool.length` windows (last first) and keeps the prefix. -/
lemma get_batch_windows_eq (b : Nat) (pool : List Window) :
    get_batch_windows b pool =
      (pool.reverse.take (min b pool.length),
       pool.take (pool.length - min b pool.length)) := by
  induction b generalizing pool with
  | zero => simp [get_batch_windows]
  | succ n ih =>
    rcases List.eq_nil_or_concat pool with rfl | ⟨ys, l, rfl⟩
    · simp [get_batch_windows]
    · simp only [List.concat_eq_append]
      rw [get_batch_windows, List.getLast?_concat]
      simp only [List.dropLast_concat, ih ys]
      have hlen : (ys ++ [l]).length = ys.length + 1 := by simp
      have hmin : min (n + 1) (ys.length + 1) = min n ys.length + 1 :=
        Nat.succ_min_succ n ys.length
      have hrev : (ys ++ [l]).reverse = l :: ys.reverse := by simp
      have hle : ys.length - min n ys.length ≤ ys.length := Nat.sub_le _ _
      refine Prod.ext ?_ ?_
      · simp only [hlen, hmin, hrev, List.take_succ_cons]
      · simp only [hlen, hmin]
        have harith : ys.length + 1 - (min n ys.length + 1) =
            ys.length - min n ys.length := by omega
        rw [harith, List.take_append_of_le_length hle]

lemma get_batch_windows_fst_length (b : Nat) (pool : List Window) :
    (get_batch_windows b pool).1.length = min b pool.length := by
  rw [get_batch_windows_eq]
  simp only [List.length_take, List.length_reverse]
  omega

/-- One full epoch with a positive batch size draws exactly the reversed pool
and ends with an empty pool, provided the fuel covers the pool size (with
`batch_size ≥ 1`, `pool.length` calls always suffice). -/
lemma drawAll_eq (b : Nat) (hb : 1 ≤ b) :
    ∀ (fuel : Nat) (pool : List Window), pool.length ≤ fuel →
      drawAll b fuel pool = (pool.reverse, []) := by
  intro fuel
  induction fuel with
  | zero =>
    intro pool hlen
    have : pool = [] := List.length_eq_zero.mp (by omega)
    subst this
    simp [drawAll]
  | succ n ih =>
    intro pool hlen
    rcases List.eq_nil_or_concat pool with rfl | ⟨ys, l, rfl⟩
    · simp [drawAll, is_complete_nil]
    · simp only [List.concat_eq_append] at hlen ⊢
      have hcomp : is_complete (ys ++ [l]) = false := by
        simp [is_complete]
      rw [drawAll, hcomp]
      simp only [Bool.false_eq_true, if_false]
      rw [get_batch_windows_eq]
      set L := (ys ++ [l]).length with hL
      have hLpos : 1 ≤ L := by simp [hL]
      have hk : 1 ≤ min b L := le_min hb hLpos
      have hrestlen : ((ys ++ [l]).take (L - min b L)).length ≤ n := by
        simp only [List.length_take, hL] at *
        have : (ys ++ [l]).length ≤ n + 1 := hlen
        omega
      rw [ih _ hrestlen]
      refine Prod.ext ?_ rfl
      show (ys ++ [l]).reverse.take (min b L) ++
          ((ys ++ [l]).take (L - min b L)).reverse = (ys ++ [l]).reverse
      rw [List.reverse_take]
      have : (ys ++ [l]).length - (L - min b L) = min b L := by
        simp only [hL]; omega
      rw [this]
      exact List.take_append_drop _ _

lemma partition_one_nodup {seq : String} {L w s : Int} (hs : 0 < s) :
    (partition_one seq L w s).Nodup := by
  refine List.Nodup.map ?_ (pythonRange_nodup hs)
  intro a b hab
  simpa using congrArg (fun wnd => wnd.2.1) hab

lemma partition_one_fst {seq : String} {L w s : Int} {wnd : Window}
    (h : wnd ∈ partition_one seq L w s) : wnd.1 = seq := by
  rcases List.mem_map.mp h with ⟨st, _, rfl⟩
  rfl

lemma partition_sequences_nodup {seqs : List (String × Int)} {w s : Int}
    (hs : 0 < s) (hids : (seqs.map Prod.fst).Nodup) :
    (partition_sequences seqs w s).Nodup := by
  rw [partition_sequences, List.nodup_flatMap]
  constructor
  · intro p _
    exact partition_one_nodup hs
  · have hpw : seqs.Pairwise (fun p q => p.1 ≠ q.1) :=
      (List.pairwise_map.mp hids)
    refine hpw.imp ?_
    intro p q hpq
    intro wnd hwp hwq
    have h1 := partition_one_fst hwp
    have h2 := partition_one_fst hwq
    exact hpq (h1 ▸ h2 ▸ rfl)

lemma partition_one_empty {seq : String} {L w s : Int} (h : L ≤ w) :
    partition_one seq L w s = [] := by
  rw [partition_one, pythonRange_empty_of_le (by omega)]
  rfl

end SchedulerLemmas

/-- A 4×4 rotation-translation matrix (raw pose from the dataset). -/
abbrev Pose : Type := Matrix (Fin 4) (Fin 4) ℝ

/-- A 3×3 rotation block. -/
abbrev Rot : Type := Matrix (Fin 3) (Fin 3) ℝ

/-- A rectified pose vector `(roll, pitch, yaw, lat, lng, alt)`. -/
abbrev Vec6 : Type := ℝ × ℝ × ℝ × ℝ × ℝ × ℝ

/-- `math.atan2(y, x)`, modelled as the argument of the complex number
`x + y·i` (range `(-π, π]`, as for `atan2`). -/
noncomputable def atan2 (y x : ℝ) : ℝ := Complex.arg ⟨x, y⟩

/-- `np.linalg.norm` of a 3×3 matrix (numpy default for a 2-D array):
the Frobenius norm. -/
noncomputable def frobeniusNorm (m : Rot) : ℝ :=
  Real.sqrt (∑ i : Fin 3, ∑ j : Fin 3, m i j ^ 2)

/-- `is_rotation_matrix(r)`: `np.linalg.norm(np.identity(3) - np.dot(r.T, r)) < 1e-6`. -/
def is_rotation_matrix (r : Rot) : Prop :=
  frobeniusNorm (1 - rᵀ * r) < 1e-6

/-- `rotation_matrix_to_euler_angles(r)`.  The leading
`assert(is_rotation_matrix(r))` is a fatal precondition in the source; it is
carried as a hypothesis of the theorems below rather than in the value. -/
noncomputable def rotation_matrix_to_euler_angles (r : Rot) : ℝ × ℝ × ℝ :=
  let sy := Real.sqrt (r 0 0 * r 0 0 + r 1 0 * r 1 0)
  let singular := sy < 1e-6
  if ¬ singular then
    (atan2 (r 2 1) (r 2 2), atan2 (-(r 2 0)) sy, atan2 (r 1 0) (r 0 0))
  else
    (atan2 (-(r 1 2)) (r 1 1), atan2 (-(r 2 0)) sy, 0)

/-- `rectify_poses(poses)`: `first_frame = poses[0]` then
`[np.dot(inv(first_frame), x) for x in poses[1:]]`.  On the empty list the
source raises `IndexError`; the source only ever calls it on non-empty lists,
and the claims below quantify over non-empty lists only. -/
noncomputable def rectify_poses : List Pose → List Pose
  | [] => []
  | first_frame :: rest => rest.map fun x => first_frame⁻¹ * x

/-- The rotation block `pose[:3, :3]`. -/
def rotBlock (pose : Pose) : Rot :=
  Matrix.of fun i j : Fin 3 => pose i.castSucc j.castSucc

/-- `mat_to_pose_vector(pose)`: euler angles of `pose[:3,:3]` followed by the
translation `pose[:3,3]`. -/
noncomputable def mat_to_pose_vector (pose : Pose) : Vec6 :=
  let e := rotation_matrix_to_euler_angles (rotBlock pose)
  (e.1, e.2.1, e.2.2, pose 0 3, pose 1 3, pose 2 3)

/-- `process_poses(poses)`: `rectify_poses` then `mat_to_pose_vector` applied
elementwise. -/
noncomputable def process_poses (poses : List Pose) : List Vec6 :=
  (rectify_poses poses).map mat_to_pose_vector

/-- A camera image, as a pixel-indexed array of real values. -/
abbrev Img : Type := ℕ → ℝ

/-- `get_stacked_rgbs(dataset, batch_frames)`: subtract the mean left image and
stack consecutive frames.  Note it takes TWO parameters. -/
noncomputable def get_stacked_rgbs (rgb : List (Img × Img)) (batch_frames : ℝ) :
    List (Img × Img) :=
  let rgbs := rgb.map fun pr => pr.1
  let mean_rgb : Img := fun px => (rgbs.map fun im => im px).sum / batch_frames
  let centered := rgbs.map fun im => fun px => im px - mean_rgb px
  centered.zip centered.tail

/-- `test_batch(basedir, seq)` from `Epoch.py`.  The source evaluates
`x = np.array([np.vstack(get_stacked_rgbs(dataset))])`, calling
`get_stacked_rgbs` with only one argument although the function requires
`(dataset, batch_frames)`; Python therefore raises `TypeError` on every call,
before `y = process_poses(poses)` is reached, so the embedding is the error. -/
def test_batch (poses : List Pose) (rgb : List (Img × Img)) :
    Except String (List (Img × Img) × List Vec6) :=
  Except.error
    "TypeError: get_stacked_rgbs() missing 1 required positional argument: batch_frames"

/-- `Epoch.get_sample(window_idx)` for one sequence.  `flowAt n` is the flow
image stored in `<flowdir>/<seq>/<n>.flo` and `poseAt n` the ground-truth pose
`odometry(datadir, seq, frames=...)` yields for frame `n`.
`frame_nos = range(*window_bounds)`; `x` is one flow image per frame number and
`y = process_poses(raw_poses)`.  When `len(frame_nos) < window_size` the source
sets `buff = True`, zero-pads `x`, and then executes
`y = np.vstack(y, np.zeros(6))`, which raises `TypeError` (`np.vstack` takes
one positional argument), so the buffered branch is an error. -/
noncomputable def get_sample {α : Type} (window_size : Int) (flowAt : Int → α)
    (poseAt : Int → Pose) (window_bounds : Int × Int) :
    Except String (List α × List Vec6) :=
  let frame_nos := pythonRange window_bounds.1 window_bounds.2 1
  let x := frame_nos.map flowAt
  let y := process_poses (frame_nos.map poseAt)
  if (frame_nos.length : Int) < window_size then
    Except.error "TypeError: vstack() takes 1 positional argument but 2 were given"
  else
    Except.ok (x, y)

/-- `Epoch.get_batch()`: draw up to `batch_size` windows from the end of the
pool, build each sample with `get_sample`, and return the batch with the
remaining pool.  An exception in any `get_sample` propagates. -/
noncomputable def get_batch {α : Type} (window_size : Int)
    (flowAt : String → Int → α) (poseAt : String → Int → Pose)
    (batch_size : Nat) (pool : List Window) :
    Except String (List (List α × List Vec6) × List Window) :=
  let drawn := get_batch_windows batch_size pool
  Except.map (fun samples => (samples, drawn.2))
    (drawn.1.mapM fun wnd => get_sample window_size (flowAt wnd.1) (poseAt wnd.1) wnd.2)

/-- The 4-byte ASCII magic `"PIEH"` that opens a `.flo` file. -/
def pieh : List Nat := [80, 73, 69, 72]

/-- A little-endian 4-byte signed integer (`np.int32`) from its bytes. -/
def int32LE (b0 b1 b2 b3 : Nat) : Int :=
  let u := b0 + 256 * b1 + 65536 * b2 + 16777216 * b3
  if u < 2147483648 then (u : Int) else (u : Int) - 4294967296

/-- Split a list into consecutive chunks of `n` elements (`n > 0` in use; a
short final chunk is kept as-is). -/
def chunksOf {α : Type} : Nat → List α → List (List α)
  | _, [] => []
  | 0, _ :: _ => []
  | n + 1, x :: xs =>
    ((x :: xs).take (n + 1)) :: chunksOf (n + 1) ((x :: xs).drop (n + 1))
  termination_by n l => l.length
  decreasing_by simp [List.length_drop]; omega

/-- The result of `read_flow`: width, height, and the `(height, width, 2)`
array of `float32` values, each value kept as its 4 raw bytes. -/
structure FlowData where
  width : Int
  height : Int
  flow : List (List (List (List Nat)))
  deriving DecidableEq

/-- `read_flow(name)` over the file's bytes.  The first 4 bytes must decode to
`"PIEH"`, else `Exception` — before the width/height fields are touched.  Then
`width` and `height` are read as `np.int32`, and `width*height*2` `float32`
values are read and reshaped to `(height, width, 2)` (reshape fails if the
file is short; numpy rejects negative dimensions). -/
def read_flow (file : List Nat) : Except String FlowData :=
  if file.take 4 ≠ pieh then
    Except.error "Flow file header does not contain PIEH"
  else
    match file.drop 4 with
    | w0 :: w1 :: w2 :: w3 :: h0 :: h1 :: h2 :: h3 :: data =>
      let width := int32LE w0 w1 w2 w3
      let height := int32LE h0 h1 h2 h3
      if width < 0 ∨ height < 0 then
        Except.error "ValueError: negative dimensions are not allowed"
      else
        let count := (width * height * 2).toNat
        if data.length < count * 4 then
          Except.error "ValueError: cannot reshape array"
        else
          Except.ok
            ⟨width, height,
             chunksOf width.toNat (chunksOf 2 (chunksOf 4 (data.take (count * 4))))⟩
    | _ => Except.error "ValueError: cannot reshape array"

/-- The reflection `diag(1, 1, -1)`: orthogonal (`RᵀR = I` exactly) but with
determinant `-1`, so not a rotation. -/
def reflectionExample : Rot := !![1, 0, 0; 0, 1, 0; 0, 0, -1]

section PoseLemmas

lemma rectify_poses_cons (p0 : Pose) (rest : List Pose) :
    rectify_poses (p0 :: rest) = rest.map fun x => p0⁻¹ * x := rfl

lemma process_poses_cons_length (p0 : Pose) (rest : List Pose) :
    (process_poses (p0 :: rest)).length = rest.length := by
  simp [process_poses, rectify_poses_cons]

lemma frobeniusNorm_zero : frobeniusNorm 0 = 0 := by
  simp [frobeniusNorm]

lemma is_rotation_matrix_one : is_rotation_matrix 1 := by
  rw [is_rotation_matrix, transpose_one, one_mul, sub_self, frobeniusNorm_zero]
  norm_num

end PoseLemmas

section ExceptLemmas

lemma mapM_ok_length {α β : Type} (f : α → Except String β) :
    ∀ (l : List α) (ys : List β), l.mapM f = Except.ok ys → ys.length = l.length := by
  intro l
  induction l with
  | nil =>
    intro ys h
    have h0 : ([] : List α).mapM f = Except.ok [] := rfl
    rw [h0] at h
    simp [(Except.ok.inj h).symm]
  | cons x xs ih =>
    intro ys h
    rw [List.mapM_cons] at h
    cases hx : f x with
    | error e => simp [hx, Bind.bind, Except.bind] at h
    | ok y =>
      simp only [hx, Bind.bind, Except.bind] at h
      cases hxs : xs.mapM f with
      | error e => rw [hxs] at h; simp [Bind.bind, Except.bind] at h
      | ok ys' =>
        rw [hxs] at h
        simp only [Bind.bind, Except.bind, pure, Except.pure, Except.ok.injEq] at h
        subst h
        simp [ih ys' hxs]

lemma mapM_ok_of_forall {α β : Type} (f : α → Except String β) :
    ∀ l : List α, (∀ x ∈ l, ∃ y, f x = Except.ok y) →
      ∃ ys : List β, l.mapM f = Except.ok ys ∧ ys.length = l.length := by
  intro l
  induction l with
  | nil => intro _; exact ⟨[], rfl, rfl⟩
  | cons x xs ih =>
    intro h
    obtain ⟨y, hy⟩ := h x (List.mem_cons_self x xs)
    obtain ⟨ys, hys, hlen⟩ := ih fun a ha => h a (List.mem_cons_of_mem x ha)
    refine ⟨y :: ys, ?_, by simp [hlen]⟩
    rw [List.mapM_cons, hy, hys]
    rfl

end ExceptLemmas

section ChunkLemmas

lemma chunksOf_len {α : Type} (n : Nat) (hn : 0 < n) :
    ∀ (m : Nat) (l : List α), l.length = m * n →
      (chunksOf n l).length = m ∧ ∀ c ∈ chunksOf n l, c.length = n := by
  intro m
  induction m with
  | zero =>
    intro l hl
    have : l = [] := List.length_eq_zero.mp (by omega)
    subst this
    simp [chunksOf]
  | succ k ih =>
    intro l hl
    obtain ⟨n', rfl⟩ : ∃ n', n = n' + 1 := ⟨n - 1, by omega⟩
    have hlen : n' + 1 ≤ l.length := by
      have : (k + 1) * (n' + 1) = k * (n' + 1) + (n' + 1) := by ring
      omega
    obtain ⟨x, xs, rfl⟩ : ∃ x xs, l = x :: xs := by
      cases l with
      | nil => simp at hlen
      | cons a as => exact ⟨a, as, rfl⟩
    rw [chunksOf]
    have hdrop : ((x :: xs).drop (n' + 1)).length = k * (n' + 1) := by
      simp only [List.length_drop]
      have : (k + 1) * (n' + 1) = k * (n' + 1) + (n' + 1) := by ring
      omega
    obtain ⟨ih1, ih2⟩ := ih ((x :: xs).drop (n' + 1)) hdrop
    have ih1' : (chunksOf (n' + 1) (List.drop n' xs)).length = k := by
      simpa using ih1
    have ih2' : ∀ c ∈ chunksOf (n' + 1) (List.drop n' xs), c.length = n' + 1 := by
      simpa using ih2
    constructor
    · simp [ih1']
    · intro c hc
      simp only [List.take_succ_cons, List.drop_succ_cons] at hc
      rcases List.mem_cons.mp hc with rfl | hc
      · simp only [List.length_cons, List.length_take]
        simp only [List.length_cons] at hlen
        omega
      · exact ih2' c hc

lemma chunksOf_mem_mem {α : Type} :
    ∀ (n : Nat) (l : List α) (c : List α), c ∈ chunksOf n l → ∀ x ∈ c, x ∈ l := by
  intro n l
  induction n, l using chunksOf.induct with
  | case1 m => intro c hc; simp [chunksOf] at hc
  | case2 x xs => intro c hc; simp [chunksOf] at hc
  | case3 n' x xs ih =>
    intro c hc y hy
    rw [chunksOf] at hc
    rcases List.mem_cons.mp hc with rfl | hc
    · exact List.mem_of_mem_take hy
    · have hmem := ih c (by simpa using hc) y hy
      exact List.mem_of_mem_drop hmem

end ChunkLemmas

section SampleLemmas

/-- On a full window `(st, st + w + 1)` — the only shape `partition_sequences`
produces — `get_sample` succeeds, returning one flow image per frame number
and the processed poses. -/
lemma get_sample_full_window {α : Type} (w : Int) (flowAt : Int → α)
    (poseAt : Int → Pose) (st : Int) (hw : 0 ≤ w) :
    get_sample w flowAt poseAt (st, st + w + 1) =
      Except.ok ((pythonRange st (st + w + 1) 1).map flowAt,
        process_poses ((pythonRange st (st + w + 1) 1).map poseAt)) := by
  have hlen : (pythonRange st (st + w + 1) 1).length = (w + 1).toNat := by
    rw [pythonRange_length_step_one]
    congr 1
    omega
  simp only [get_sample]
  rw [hlen, if_neg (by omega)]

lemma reflExample_transpose : reflectionExampleᵀ = reflectionExample := by
  ext i j
  fin_cases i <;> fin_cases j <;> rfl

lemma reflExample_orthogonal : reflectionExampleᵀ * reflectionExample = 1 := by
  rw [reflExample_transpose, reflectionExample, Matrix.mul_fin_three, Matrix.one_fin_three]
  ext i j
  fin_cases i <;> fin_cases j <;> norm_num

lemma reflExample_accepted : is_rotation_matrix reflectionExample := by
  rw [is_rotation_matrix, reflExample_orthogonal, sub_self, frobeniusNorm_zero]
  norm_num

lemma reflExample_det : reflectionExample.det = -1 := by
  rw [Matrix.det_fin_three]
  norm_num [reflectionExample]

end SampleLemmas

section ReadFlowLemmas

/-- Reduction of `read_flow` on a file with at least 12 bytes. -/
lemma read_flow_cons (m0 m1 m2 m3 w0 w1 w2 w3 h0 h1 h2 h3 : Nat) (data : List Nat) :
    read_flow (m0 :: m1 :: m2 :: m3 :: w0 :: w1 :: w2 :: w3 ::
        h0 :: h1 :: h2 :: h3 :: data) =
      if [m0, m1, m2, m3] ≠ pieh then
        Except.error "Flow file header does not contain PIEH"
      else if int32LE w0 w1 w2 w3 < 0 ∨ int32LE h0 h1 h2 h3 < 0 then
        Except.error "ValueError: negative dimensions are not allowed"
      else if data.length < (int32LE w0 w1 w2 w3 * int32LE h0 h1 h2 h3 * 2).toNat * 4 then
        Except.error "ValueError: cannot reshape array"
      else
        Except.ok
          ⟨int32LE w0 w1 w2 w3, int32LE h0 h1 h2 h3,
           chunksOf (int32LE w0 w1 w2 w3).toNat
             (chunksOf 2 (chunksOf 4
               (data.take ((int32LE w0 w1 w2 w3 * int32LE h0 h1 h2 h3 * 2).toNat * 4))))⟩ :=
  rfl

end ReadFlowLemmas

/-- Claim C1 (code bug evidence).  `("00", (1, 6))` is a window the pool
contains for `window_size = 4` (sequence of 10 frames, step 2), yet
`get_sample` returns `len(x) = 5 = window_size + 1` flow images (one per frame
number in `range(1, 6)`) and `len(y) = 4 = window_size` pose vectors, so
`len(x) == len(y) == window_size` fails, contradicting the `get_sample`
docstring `x: (window_size, HxWx3)`. -/
theorem get_sample_pool_window_lengths :
    ("00", (1 : Int), 6) ∈ partition_one "00" 10 4 2 ∧
    ∃ (x : List Unit) (y : List Vec6),
      get_sample 4 (fun _ => ()) (fun _ => (1 : Pose)) ((1 : Int), 6) = Except.ok (x, y) ∧
        x.length = 5 ∧ y.length = 4 := by
  constructor
  · decide
  · rw [show ((1 : Int), (6 : Int)) = ((1 : Int), 1 + 4 + 1) from rfl,
      get_sample_full_window 4 _ _ 1 (by norm_num)]
    have hr : pythonRange 1 (1 + 4 + 1) 1 = [1, 2, 3, 4, 5] := by decide
    rw [hr]
    refine ⟨_, _, rfl, by simp, ?_⟩
    simp only [List.map_cons, List.map_nil]
    rw [process_poses_cons_length]
    rfl

/-- Claim C2: over one full epoch (iterating `get_batch` until `is_complete`),
the windows drawn across all calls number exactly those produced by
`partition_sequences` over all training sequences, none is drawn twice, and
after the last draw `is_complete` is true.  `pool` is any shuffle
(permutation) of the partition output. -/
theorem epoch_draws_each_window_once (seqs : List (String × Int)) (w s : Int)
    (b : Nat) (pool : List Window)
    (hs : 0 < s) (hids : (seqs.map Prod.fst).Nodup) (hb : 1 ≤ b)
    (hpool : pool.Perm (partition_sequences seqs w s)) :
    (drawAll b pool.length pool).1.length = (partition_sequences seqs w s).length ∧
      (drawAll b pool.length pool).1.Nodup ∧
      is_complete (drawAll b pool.length pool).2 = true := by
  have hdraw := drawAll_eq b hb pool.length pool le_rfl
  rw [hdraw]
  refine ⟨?_, ?_, rfl⟩
  · simp [hpool.length_eq]
  · rw [List.nodup_reverse]
    exact hpool.nodup_iff.mpr (partition_sequences_nodup hs hids)

/-- Witness for C2 at the spec's end-to-end scenario: one sequence of 12
frames, `window_size = 5`, `step_size = 5`, `batch_size = 1`, identity
shuffle. -/
theorem epoch_draws_each_window_once_witness :
    (0 : Int) < 5 ∧
    (([(("00" : String), (12 : Int))]).map Prod.fst).Nodup ∧
    1 ≤ 1 ∧
    (partition_sequences [("00", 12)] 5 5).Perm (partition_sequences [("00", 12)] 5 5) ∧
    ((drawAll 1 (partition_sequences [("00", 12)] 5 5).length
        (partition_sequences [("00", 12)] 5 5)).1.length =
      (partition_sequences [("00", 12)] 5 5).length ∧
     (drawAll 1 (partition_sequences [("00", 12)] 5 5).length
        (partition_sequences [("00", 12)] 5 5)).1.Nodup ∧
     is_complete (drawAll 1 (partition_sequences [("00", 12)] 5 5).length
        (partition_sequences [("00", 12)] 5 5)).2 = true) :=
  ⟨by norm_num, by decide, le_rfl, List.Perm.refl _,
    epoch_draws_each_window_once [("00", 12)] 5 5 1 _ (by norm_num) (by decide)
      le_rfl (List.Perm.refl _)⟩

/-- Claim C3: the windows emitted for a sequence are exactly those with starts
`1, 1 + step, 1 + 2·step, …` bounded by `start ≤ frame_count - window_size`
(so frame 0 is never a start), each with end `min(start + window_size + 1,
frame_count + 1)`; and for `frame_count = 10, window_size = 4, step_size = 2`
the starts are exactly `1, 3, 5`. -/
theorem partition_starts_exact (seq : String) (L w s : Int) (hs : 0 < s) :
    (∀ wnd : Window,
        wnd ∈ partition_one seq L w s ↔
          ∃ k : Nat,
            wnd = (seq, 1 + (k : Int) * s, min (1 + (k : Int) * s + w + 1) (L + 1)) ∧
              1 + (k : Int) * s ≤ L - w) ∧
    (partition_one "00" 10 4 2).map (fun wnd => wnd.2.1) = [1, 3, 5] := by
  constructor
  · intro wnd
    rw [partition_one, List.mem_map]
    constructor
    · rintro ⟨st, hst, rfl⟩
      rcases (pythonRange_mem hs st).mp hst with ⟨k, rfl, hlt⟩
      exact ⟨k, rfl, by omega⟩
    · rintro ⟨k, rfl, hle⟩
      exact ⟨1 + (k : Int) * s, (pythonRange_mem hs _).mpr ⟨k, rfl, by omega⟩, rfl⟩
  · decide

/-- Witness for C3 at `step_size = 2`. -/
theorem partition_starts_exact_witness :
    (0 : Int) < 2 ∧
    (partition_one "00" 10 4 2).map (fun wnd => wnd.2.1) = [1, 3, 5] :=
  ⟨by norm_num, (partition_starts_exact "00" 10 4 2 (by norm_num)).2⟩

/-- Claim C4 (code bug evidence).  `process_poses` does produce exactly `n`
6-component vectors from `n + 1` input poses; but the test entry point
`test_batch` never produces its label array because it calls
`get_stacked_rgbs(dataset)` without the required `batch_frames` argument and
raises `TypeError` first. -/
theorem process_poses_length_and_test_batch :
    (∀ (p0 : Pose) (rest : List Pose),
        (process_poses (p0 :: rest)).length = rest.length) ∧
    ∀ (poses : List Pose) (rgb : List (Img × Img)),
      test_batch poses rgb = Except.error
        "TypeError: get_stacked_rgbs() missing 1 required positional argument: batch_frames" :=
  ⟨process_poses_cons_length, fun _ _ => rfl⟩

/-- Claim C5: `rectify_poses [p0, p1, …, pn]` is
`[inverse(p0)·p1, …, inverse(p0)·pn]` — `p0` dropped, length `n`, first
element `inverse(p0)·p1`. -/
theorem rectify_poses_drops_first (p0 : Pose) (rest : List Pose) (h : IsUnit p0) :
    rectify_poses (p0 :: rest) = rest.map (fun x => p0⁻¹ * x) ∧
    (rectify_poses (p0 :: rest)).length = rest.length ∧
    ∀ (p1 : Pose) (rest' : List Pose), rest = p1 :: rest' →
      (rectify_poses (p0 :: rest)).head? = some (p0⁻¹ * p1) := by
  refine ⟨rectify_poses_cons p0 rest, by simp [rectify_poses_cons], ?_⟩
  rintro p1 rest' rfl
  simp [rectify_poses_cons]

/-- Witness for C5 at the invertible pose `1`. -/
theorem rectify_poses_drops_first_witness :
    IsUnit (1 : Pose) ∧
    rectify_poses [(1 : Pose), 1] = [(1 : Pose)⁻¹ * 1] ∧
    (rectify_poses [(1 : Pose), 1]).head? = some ((1 : Pose)⁻¹ * 1) := by
  have h := rectify_poses_drops_first 1 [1] isUnit_one
  exact ⟨isUnit_one, by simpa using h.1, h.2.2 1 [] rfl⟩

/-- Claim C6: for a valid rotation matrix, with
`sy = sqrt(r00² + r10²)`, the euler conversion returns
`(atan2 r21 r22, atan2 (-r20) sy, atan2 r10 r00)` when `sy ≥ 1e-6` and
`(atan2 (-r12) r11, atan2 (-r20) sy, 0)` in the gimbal-lock branch
`sy < 1e-6`. -/
theorem euler_angles_branch_formulas (r : Rot) (h : is_rotation_matrix r) :
    ((1e-6 : ℝ) ≤ Real.sqrt (r 0 0 * r 0 0 + r 1 0 * r 1 0) →
      rotation_matrix_to_euler_angles r =
        (atan2 (r 2 1) (r 2 2),
         atan2 (-(r 2 0)) (Real.sqrt (r 0 0 * r 0 0 + r 1 0 * r 1 0)),
         atan2 (r 1 0) (r 0 0))) ∧
    (Real.sqrt (r 0 0 * r 0 0 + r 1 0 * r 1 0) < 1e-6 →
      rotation_matrix_to_euler_angles r =
        (atan2 (-(r 1 2)) (r 1 1),
         atan2 (-(r 2 0)) (Real.sqrt (r 0 0 * r 0 0 + r 1 0 * r 1 0)),
         0)) := by
  constructor
  · intro hge
    simp only [rotation_matrix_to_euler_angles]
    rw [if_pos (not_lt.mpr hge)]
  · intro hlt
    simp only [rotation_matrix_to_euler_angles]
    rw [if_neg (not_not_intro hlt)]

/-- Witness for C6 at the identity rotation (non-singular branch). -/
theorem euler_angles_branch_formulas_witness :
    is_rotation_matrix (1 : Rot) ∧
    ((1e-6 : ℝ) ≤
      Real.sqrt ((1 : Rot) 0 0 * (1 : Rot) 0 0 + (1 : Rot) 1 0 * (1 : Rot) 1 0)) ∧
    rotation_matrix_to_euler_angles (1 : Rot) =
      (atan2 ((1 : Rot) 2 1) ((1 : Rot) 2 2),
       atan2 (-((1 : Rot) 2 0))
         (Real.sqrt ((1 : Rot) 0 0 * (1 : Rot) 0 0 + (1 : Rot) 1 0 * (1 : Rot) 1 0)),
       atan2 ((1 : Rot) 1 0) ((1 : Rot) 0 0)) := by
  have hsy :
      Real.sqrt ((1 : Rot) 0 0 * (1 : Rot) 0 0 + (1 : Rot) 1 0 * (1 : Rot) 1 0) = 1 := by
    rw [Matrix.one_apply_eq, Matrix.one_apply_ne (by decide : (1 : Fin 3) ≠ 0)]
    norm_num
  have hge : (1e-6 : ℝ) ≤
      Real.sqrt ((1 : Rot) 0 0 * (1 : Rot) 0 0 + (1 : Rot) 1 0 * (1 : Rot) 1 0) := by
    rw [hsy]; norm_num
  exact ⟨is_rotation_matrix_one, hge,
    (euler_angles_branch_formulas 1 is_rotation_matrix_one).1 hge⟩

/-- Claim C7: calling `get_batch` on an empty pool returns an empty batch (not
an error), and on a pool of full windows (the only shape the partition
produces) it returns a batch of exactly `min batch_size pool.length` samples,
never padded. -/
theorem get_batch_empty_and_min_length {α : Type} (w : Int)
    (flowAt : String → Int → α) (poseAt : String → Int → Pose)
    (b : Nat) (pool : List Window)
    (hw : 0 ≤ w)
    (hpool : ∀ wnd ∈ pool, wnd.2.2 = wnd.2.1 + w + 1) :
    get_batch w flowAt poseAt b ([] : List Window) = Except.ok ([], []) ∧
    ∃ samples, get_batch w flowAt poseAt b pool =
        Except.ok (samples, (get_batch_windows b pool).2) ∧
      samples.length = min b pool.length := by
  constructor
  · simp [get_batch, get_batch_windows_nil]
    rfl
  · have hsub : ∀ wnd ∈ (get_batch_windows b pool).1, wnd ∈ pool := by
      intro wnd hwnd
      rw [get_batch_windows_eq] at hwnd
      exact List.mem_reverse.mp (List.mem_of_mem_take hwnd)
    have hok : ∀ wnd ∈ (get_batch_windows b pool).1,
        ∃ smp, get_sample w (flowAt wnd.1) (poseAt wnd.1) wnd.2 = Except.ok smp := by
      intro wnd hwnd
      have hbound := hpool wnd (hsub wnd hwnd)
      have hpair : wnd.2 = (wnd.2.1, wnd.2.1 + w + 1) := by
        rw [← hbound]
      rw [hpair, get_sample_full_window w _ _ _ hw]
      exact ⟨_, rfl⟩
    obtain ⟨samples, hmapM, hlen⟩ := mapM_ok_of_forall _ _ hok
    refine ⟨samples, ?_, ?_⟩
    · simp only [get_batch]
      rw [hmapM]
      rfl
    · rw [hlen, get_batch_windows_fst_length]

/-- Witness for C7: a one-window pool with `window_size = 5` and
`batch_size = 2`; the batch is one sample long (`min 2 1`). -/
theorem get_batch_empty_and_min_length_witness :
    (0 : Int) ≤ 5 ∧
    (∀ wnd ∈ [(("00" : String), (1 : Int), 7)], wnd.2.2 = wnd.2.1 + 5 + 1) ∧
    get_batch 5 (fun _ _ => ()) (fun _ _ => (1 : Pose)) 2 ([] : List Window) =
      Except.ok ([], []) ∧
    ∃ samples,
      get_batch 5 (fun _ _ => ()) (fun _ _ => (1 : Pose)) 2 [(("00" : String), (1 : Int), 7)] =
        Except.ok (samples, (get_batch_windows 2 [(("00" : String), (1 : Int), 7)]).2) ∧
      samples.length = min 2 ([(("00" : String), (1 : Int), 7)] : List Window).length := by
  have h1 : (0 : Int) ≤ 5 := by norm_num
  have h2 : ∀ wnd ∈ [(("00" : String), (1 : Int), 7)], wnd.2.2 = wnd.2.1 + 5 + 1 := by
    decide
  obtain ⟨ha, hb'⟩ :=
    get_batch_empty_and_min_length 5 (fun _ _ => ()) (fun _ _ => (1 : Pose)) 2
      [(("00" : String), (1 : Int), 7)] h1 h2
  exact ⟨h1, h2, ha, hb'⟩

/-- Claim C9 counterexample: the reflection `diag(1, 1, -1)` passes
`is_rotation_matrix` (it is exactly orthogonal) yet has determinant `-1`, so
acceptance does not imply unit determinant even within tolerance. -/
theorem is_rotation_matrix_accepts_reflection :
    is_rotation_matrix reflectionExample ∧
    reflectionExample.det = -1 ∧
    ¬ |reflectionExample.det - 1| < 1e-6 := by
  refine ⟨reflExample_accepted, reflExample_det, ?_⟩
  rw [reflExample_det]
  norm_num

/-- Claim C9, amended: `is_rotation_matrix r` holds iff
`‖Rᵀ·R − I‖ < 1e-6` in Frobenius norm (orthogonality to tolerance); unit
determinant is neither checked nor implied. -/
theorem is_rotation_matrix_iff_frobenius (r : Rot) :
    is_rotation_matrix r ↔ frobeniusNorm (rᵀ * r - 1) < 1e-6 := by
  rw [is_rotation_matrix]
  have hsym : frobeniusNorm (1 - rᵀ * r) = frobeniusNorm (rᵀ * r - 1) := by
    rw [frobeniusNorm, frobeniusNorm]
    congr 1
    refine Finset.sum_congr rfl fun i _ => Finset.sum_congr rfl fun j _ => ?_
    have hneg : (1 - rᵀ * r) i j = -((rᵀ * r - 1) i j) := by
      simp [Matrix.sub_apply]
    rw [hneg, neg_sq]
  rw [hsym]

/-- Claim C10: when every training sequence has at most `window_size` frames,
the partition is empty, so the epoch is complete immediately after
construction and any `get_batch` call draws nothing. -/
theorem short_sequences_empty_epoch (seqs : List (String × Int)) (w s : Int)
    (b : Nat) (pool : List Window)
    (hshort : ∀ p ∈ seqs, p.2 ≤ w)
    (hpool : pool.Perm (partition_sequences seqs w s)) :
    partition_sequences seqs w s = [] ∧ pool = [] ∧
      is_complete pool = true ∧ get_batch_windows b pool = ([], []) := by
  have hpart : partition_sequences seqs w s = [] := by
    rw [partition_sequences, List.flatMap_eq_nil_iff]
    intro p hp
    exact partition_one_empty (hshort p hp)
  have hnil : pool = [] := by
    rw [hpart] at hpool
    exact hpool.eq_nil
  subst hnil
  exact ⟨hpart, rfl, rfl, get_batch_windows_nil b⟩

/-- Witness for C10: one 3-frame sequence with `window_size = 5`. -/
theorem short_sequences_empty_epoch_witness :
    (∀ p ∈ [(("00" : String), (3 : Int))], p.2 ≤ 5) ∧
    ([] : List Window).Perm (partition_sequences [("00", 3)] 5 2) ∧
    partition_sequences [("00", 3)] 5 2 = [] ∧
    is_complete ([] : List Window) = true ∧
    get_batch_windows 3 ([] : List Window) = ([], []) := by
  have h1 : ∀ p ∈ [(("00" : String), (3 : Int))], p.2 ≤ 5 := by decide
  have hp : partition_sequences [(("00" : String), (3 : Int))] 5 2 = [] := by decide
  have h2 : ([] : List Window).Perm (partition_sequences [("00", 3)] 5 2) := by
    rw [hp]
  obtain ⟨ha, _, hc, hd⟩ := short_sequences_empty_epoch [("00", 3)] 5 2 3 [] h1 h2
  exact ⟨h1, h2, ha, hc, hd⟩

/-- Claim C8: any file whose first four bytes are not the magic `"PIEH"` makes
`read_flow` fail with the format error — uniformly in the rest of the file,
hence before width/height are parsed; with the correct magic, the next two
4-byte little-endian signed integers are width and height and the following
`width*height*2` 4-byte floats form the `(height, width, 2)` flow array. -/
theorem read_flow_magic_and_shape :
    (∀ file : List Nat, file.take 4 ≠ pieh →
        read_flow file = Except.error "Flow file header does not contain PIEH") ∧
    ∀ (w0 w1 w2 w3 h0 h1 h2 h3 : Nat) (data : List Nat),
      0 < int32LE w0 w1 w2 w3 → 0 < int32LE h0 h1 h2 h3 →
      data.length = (int32LE w0 w1 w2 w3 * int32LE h0 h1 h2 h3 * 2).toNat * 4 →
      ∃ flow,
        read_flow (pieh ++ w0 :: w1 :: w2 :: w3 :: h0 :: h1 :: h2 :: h3 :: data) =
          Except.ok ⟨int32LE w0 w1 w2 w3, int32LE h0 h1 h2 h3, flow⟩ ∧
        flow.length = (int32LE h0 h1 h2 h3).toNat ∧
        ∀ row ∈ flow, row.length = (int32LE w0 w1 w2 w3).toNat ∧
          ∀ px ∈ row, px.length = 2 ∧ ∀ v ∈ px, v.length = 4 := by
  constructor
  · intro file hm
    unfold read_flow
    rw [if_pos hm]
  · intro w0 w1 w2 w3 h0 h1 h2 h3 data hW hH hlen
    have hfile : pieh ++ w0 :: w1 :: w2 :: w3 :: h0 :: h1 :: h2 :: h3 :: data =
        80 :: 73 :: 69 :: 72 :: w0 :: w1 :: w2 :: w3 :: h0 :: h1 :: h2 :: h3 :: data :=
      rfl
    rw [hfile, read_flow_cons, if_neg (by decide)]
    set W := int32LE w0 w1 w2 w3 with hWdef
    set H := int32LE h0 h1 h2 h3 with hHdef
    rw [if_neg (by omega), if_neg (by omega)]
    have hdata_take : data.take ((W * H * 2).toNat * 4) = data :=
      List.take_of_length_le hlen.le
    rw [hdata_take]
    have hWH : (W * H * 2).toNat = W.toNat * H.toNat * 2 := by
      have h1 : (0 : Int) ≤ W := le_of_lt hW
      have h2 : (0 : Int) ≤ H := le_of_lt hH
      have hX : ((W.toNat * H.toNat * 2 : Nat) : Int) = W * H * 2 := by
        push_cast [Int.toNat_of_nonneg h1, Int.toNat_of_nonneg h2]
        ring
      omega
    obtain ⟨hflen, hfall⟩ := chunksOf_len 4 (by norm_num) ((W * H * 2).toNat) data hlen
    have hflen2 : (chunksOf 4 data).length = (W.toNat * H.toNat) * 2 := by
      rw [hflen, hWH]
    obtain ⟨hplen, hpall⟩ :=
      chunksOf_len 2 (by norm_num) (W.toNat * H.toNat) (chunksOf 4 data) hflen2
    have hplen2 : (chunksOf 2 (chunksOf 4 data)).length = H.toNat * W.toNat := by
      rw [hplen]; ring
    have hWpos : 0 < W.toNat := by omega
    obtain ⟨hrlen, hrall⟩ :=
      chunksOf_len W.toNat hWpos H.toNat (chunksOf 2 (chunksOf 4 data)) hplen2
    refine ⟨chunksOf W.toNat (chunksOf 2 (chunksOf 4 data)), rfl, hrlen, ?_⟩
    intro row hrow
    refine ⟨hrall row hrow, ?_⟩
    intro px hpx
    have hpxmem : px ∈ chunksOf 2 (chunksOf 4 data) :=
      chunksOf_mem_mem _ _ row hrow px hpx
    refine ⟨hpall px hpxmem, ?_⟩
    intro v hv
    exact hfall v (chunksOf_mem_mem _ _ px hpxmem v hv)

/-- Witness for C8: the magic `"XXXX"` (bytes 88) is rejected, and a 1×1 flow
file with correct magic parses to width 1, height 1 and a 1×1×2 array. -/
theorem read_flow_magic_and_shape_witness :
    (([88, 88, 88, 88] : List Nat).take 4 ≠ pieh ∧
      read_flow [88, 88, 88, 88] = Except.error "Flow file header does not contain PIEH") ∧
    (0 < int32LE 1 0 0 0 ∧
      ([9, 9, 9, 9, 7, 7, 7, 7] : List Nat).length =
        (int32LE 1 0 0 0 * int32LE 1 0 0 0 * 2).toNat * 4 ∧
      ∃ flow,
        read_flow (pieh ++ 1 :: 0 :: 0 :: 0 :: 1 :: 0 :: 0 :: 0 ::
            ([9, 9, 9, 9, 7, 7, 7, 7] : List Nat)) =
          Except.ok ⟨int32LE 1 0 0 0, int32LE 1 0 0 0, flow⟩ ∧
        flow.length = (int32LE 1 0 0 0).toNat ∧
        ∀ row ∈ flow, row.length = (int32LE 1 0 0 0).toNat ∧
          ∀ px ∈ row, px.length = 2 ∧ ∀ v ∈ px, v.length = 4) :=
  ⟨⟨by decide, read_flow_magic_and_shape.1 _ (by decide)⟩,
    by decide, by decide,
    read_flow_magic_and_shape.2 1 0 0 0 1 0 0 0 _ (by decide) (by decide) (by decide)⟩
